import Mathlib

/-!
Shallow embedding of the `pubmed_parser` package
(`src/PUBMED/src/pubmed_parser/__init__.py`): the affiliation classifier
`_is_non_academic_affiliation`, the author field extractor
`_parse_author_affiliation`, the aggregation loop of
`fetch_and_filter_pubmed_papers`, and the CSV sink `save_papers_to_csv`.
Python `Optional[str]` values become `Option String`; Python truthiness of
an optional string (`if affiliation:`) becomes `affTruthy`; the two regular
expressions of the module are embedded as explicit scans over `List Char`.
Network and file-system effects are passed in as `Except`-valued inputs.
-/

/-- Python truthiness of an `Optional[str]` value: `None` and `""` are falsy. -/
def affTruthy : Option String → Bool
  | some s => s != ""
  | none => false

/-- Character-level lowercase of a string, modelling Python `str.lower()`
(ASCII range; the keywords below are all ASCII). -/
def lowerChars (s : String) : List Char := s.data.map Char.toLower

/-- Python substring test `pat in l` over character lists. -/
def containsSub : List Char → List Char → Bool
  | [], pat => pat.isEmpty
  | c :: rest, pat => pat.isPrefixOf (c :: rest) || containsSub rest pat

/-- Word character for the regex word boundary: ASCII approximation of `\w`. -/
def isWordChar (c : Char) : Bool := c.isAlphanum || c == '_'

/-- Character class `[\w\.-]` of the email regular expression. -/
def emailChar (c : Char) : Bool := isWordChar c || c == '.' || c == '-'

/-- The alternation `(inc|llc|corp|ltd|co)` of the corporate-suffix regex. -/
def corpWords : List (List Char) :=
  ["inc".data, "llc".data, "corp".data, "ltd".data, "co".data]

/-- Does `w` occur at the head of `l`, with a word boundary right after it? -/
def wordBoundedAt : List Char → List Char → Bool
  | [], [] => true
  | [], c :: _ => !isWordChar c
  | _ :: _, [] => false
  | a :: wr, c :: lr => a == c && wordBoundedAt wr lr

/-- Scan for `\b(inc|llc|corp|ltd|co)\b`; `prevWord` says whether the
character just before the current position is a word character. -/
def corpRegexScan : Bool → List Char → Bool
  | _, [] => false
  | prevWord, c :: rest =>
    (!prevWord && corpWords.any (fun w => wordBoundedAt w (c :: rest)))
      || corpRegexScan (isWordChar c) rest

/-- Embedding of `re.search(r'\b(inc|llc|corp|ltd|co)\b', s)` as a Bool. -/
def matchesCorpRegex (l : List Char) : Bool := corpRegexScan false l

/-- Keyword list `PHARMA_BIOTECH_KEYWORDS` from the source, verbatim. -/
def PHARMA_BIOTECH_KEYWORDS : List String :=
  ["pharmaceutical", "biotech", "biotechnology", "pharma", "inc.", "llc", "corp",
   "company", "laboratories", "labs", "research institute", "r&d", "drug discovery",
   "clinical research", "diagnostics", "therapeutics", "medicines", "healthcare",
   "institute", "foundation", "center"]

/-- Keyword list `ACADEMIC_KEYWORDS` from the source, verbatim. -/
def ACADEMIC_KEYWORDS : List String :=
  ["university", "college", "school of", "department of", "faculty of", "academy",
   "hospital", "medical center", "clinic"]

/-- Embedding of `_is_non_academic_affiliation`: lowercase the input, return
`false` on any academic keyword, else `true` on any pharma/biotech keyword,
else `true` on a whole-word corporate suffix, else `false`. -/
def isNonAcademicAffiliation (affiliation : String) : Bool :=
  let lower := lowerChars affiliation
  if ACADEMIC_KEYWORDS.any (fun k => containsSub lower k.data) then false
  else if PHARMA_BIOTECH_KEYWORDS.any (fun k => containsSub lower k.data) then true
  else if matchesCorpRegex lower then true
  else false

/-- Convenience predicate: no academic keyword occurs in the lowered string. -/
def noAcademicKeyword (s : String) : Bool :=
  !(ACADEMIC_KEYWORDS.any (fun k => containsSub (lowerChars s) k.data))


/-- Core of the email search `re.search(r'[\w\.-]+@[\w\.-]+', s)`: walk the
string keeping the reversed prefix; at the first `@` that has an email-class
character immediately on both sides, return the maximal class runs around it
(leftmost match with greedy runs, as Python returns it). -/
def findEmailCore : List Char → List Char → Option (List Char)
  | _, [] => none
  | revAcc, c :: rest =>
    if c == '@' then
      let pre := revAcc.takeWhile emailChar
      let post := rest.takeWhile emailChar
      if !pre.isEmpty && !post.isEmpty then some (pre.reverse ++ '@' :: post)
      else findEmailCore (c :: revAcc) rest
    else findEmailCore (c :: revAcc) rest

/-- Embedding of the email extraction from an affiliation string: the text of
the first match of `[\w\.-]+@[\w\.-]+`, if any. -/
def findEmail (s : String) : Option String :=
  (findEmailCore [] s.data).map (fun l => String.mk l)


/-- Author node as seen by `_parse_author_affiliation`: the `findtext` results
for the four name fields and the text of the first `AffiliationInfo/Affiliation`
node (both the node and its text may be absent). -/
structure AuthorRec where
  lastName : Option String
  foreName : Option String
  initials : Option String
  collectiveName : Option String
  affiliation : Option String
deriving Repr, DecidableEq

/-- Embedding of `_parse_author_affiliation`: compose the author name by the
priority chain collective / given+surname / initials+surname / surname / empty
(Python truthiness on each field), and pass the affiliation text through. -/
def parseAuthorAffiliation (a : AuthorRec) : String × Option String :=
  let authorName :=
    if affTruthy a.collectiveName then a.collectiveName.getD ""
    else if affTruthy a.lastName && affTruthy a.foreName then
      a.foreName.getD "" ++ " " ++ a.lastName.getD ""
    else if affTruthy a.lastName && affTruthy a.initials then
      a.initials.getD "" ++ " " ++ a.lastName.getD ""
    else if affTruthy a.lastName then a.lastName.getD ""
    else ""
  (authorName, a.affiliation)

/-- Embedding of the publication-date assembly (lines 149-155 of the source):
start from the year when truthy, append the month when truthy, and append the
day only inside the month branch. -/
def composePubDate (year month day : Option String) : String :=
  if affTruthy year then
    let base := year.getD ""
    if affTruthy month then
      let withMonth := base ++ " " ++ month.getD ""
      if affTruthy day then withMonth ++ " " ++ day.getD "" else withMonth
    else base
  else ""


/-- The four per-article accumulator variables of the author loop. -/
structure ScanState where
  nonAcadAuthors : List String
  companyAffs : List String
  email : Option String
  hasNonAcad : Bool
deriving Repr, DecidableEq

/-- Embedding of the author loop of `fetch_and_filter_pubmed_papers`
(lines 164-188): per author, append name and affiliation when the present
affiliation classifies non-academic; then, when the present affiliation
contains an email match, record it and `break` out of the whole loop. -/
def scanAuthorsGo : List AuthorRec → List String → List String → Option String → Bool → ScanState
  | [], na, ca, em, flag => ⟨na, ca, em, flag⟩
  | a :: rest, na, ca, em, flag =>
    let pr := parseAuthorAffiliation a
    let hit := affTruthy pr.2 && isNonAcademicAffiliation (pr.2.getD "")
    let na2 := if hit then na ++ [pr.1] else na
    let ca2 := if hit then ca ++ [pr.2.getD ""] else ca
    let flag2 := if hit then true else flag
    if affTruthy pr.2 then
      match findEmail (pr.2.getD "") with
      | some e => ⟨na2, ca2, some e, flag2⟩
      | none => scanAuthorsGo rest na2 ca2 em flag2
    else scanAuthorsGo rest na2 ca2 em flag2

/-- The author loop started on the empty accumulators, as in the source. -/
def scanAuthors (authors : List AuthorRec) : ScanState :=
  scanAuthorsGo authors [] [] none false

/-- Specification-side predicate: this author's present affiliation contains
an email match, so reaching it stops the author loop. -/
def stopsScan (a : AuthorRec) : Bool :=
  affTruthy a.affiliation && (findEmail (a.affiliation.getD "")).isSome

/-- Specification-side predicate: this author has a present affiliation that
classifies as non-academic. -/
def nonAcadAuthor (a : AuthorRec) : Bool :=
  affTruthy a.affiliation && isNonAcademicAffiliation (a.affiliation.getD "")

/-- The prefix of the author list the loop actually examines: all authors up
to and including the first one whose affiliation yields an email. -/
def scannedAuthors : List AuthorRec → List AuthorRec
  | [] => []
  | a :: rest => if stopsScan a then [a] else a :: scannedAuthors rest

/-- The first email found scanning authors in order, if any. -/
def firstEmail : List AuthorRec → Option String
  | [] => none
  | a :: rest =>
    if affTruthy a.affiliation then
      match findEmail (a.affiliation.getD "") with
      | some e => some e
      | none => firstEmail rest
    else firstEmail rest

/-- One output row of the pipeline, with the dict keys of the source as
fields; `pubmedID` and `title` carry the possibly absent node text. -/
structure Row where
  pubmedID : Option String
  title : Option String
  publicationDate : String
  nonAcademicAuthors : String
  companyAffiliations : String
  correspondingAuthorEmail : String
deriving Repr, DecidableEq

/-- Python `"; ".join`. -/
def joinSemi (l : List String) : String := String.intercalate "; " l

/-- One `PubmedArticle` node as the aggregation loop reads it: for the PMID,
title and `PubDate` nodes the outer `Option` is node presence (`xpath(...)[0]`
raises `IndexError` on an absent node) and the inner values are the node
texts; `authors` is the possibly empty `AuthorList/Author` node list. -/
structure ArticleRec where
  pmid : Option (Option String)
  title : Option (Option String)
  pubDate : Option (Option String × Option String × Option String)
  authors : List AuthorRec
deriving Repr, DecidableEq

/-- The dict literal appended to `filtered_papers` (lines 191-198), built
from the scan state of the article's authors; the email field falls back to
`"N/A"` when the scanned email is falsy. -/
def articleRow (a : ArticleRec) (pid ttl : Option String)
    (pd : Option String × Option String × Option String) : Row :=
  { pubmedID := pid
    title := ttl
    publicationDate := composePubDate pd.1 pd.2.1 pd.2.2
    nonAcademicAuthors := joinSemi (scanAuthors a.authors).nonAcadAuthors
    companyAffiliations := joinSemi (scanAuthors a.authors).companyAffs
    correspondingAuthorEmail :=
      match (scanAuthors a.authors).email with
      | some e => if e == "" then "N/A" else e
      | none => "N/A" }

/-- Embedding of one iteration of the per-article loop (lines 139-200):
extract the fields (an absent PMID, title or `PubDate` node raises), run the
author scan, and emit a row exactly when the non-academic flag was set. -/
def processArticle (a : ArticleRec) : Except String (Option Row) :=
  match a.pmid, a.title, a.pubDate with
  | some pid, some ttl, some pd =>
    if (scanAuthors a.authors).hasNonAcad then .ok (some (articleRow a pid ttl pd))
    else .ok none
  | _, _, _ => .error "IndexError"

/-- The per-article loop over the whole document: the first raising article
aborts the batch (the exception propagates to the orchestrator boundary). -/
def aggregateArticles : List ArticleRec → Except String (List Row)
  | [] => .ok []
  | a :: rest => do
    let r ← processArticle a
    let rs ← aggregateArticles rest
    match r with
    | some row => .ok (row :: rs)
    | none => .ok rs

/-- Body of the `try` block of `fetch_and_filter_pubmed_papers`: the search
collaborator's outcome, the early return on an empty id list, then the
fetch-and-parse collaborator's outcome, then aggregation. -/
def fetchFilterCore (searchRes : Except String (List String))
    (fetchRes : Except String (List ArticleRec)) : Except String (List Row) := do
  let ids ← searchRes
  if ids.isEmpty then .ok []
  else do
    let arts ← fetchRes
    aggregateArticles arts

/-- Embedding of `fetch_and_filter_pubmed_papers` with the two effectful
collaborators (Entrez search; Entrez fetch plus XML parse) passed in as
`Except` values: the surrounding `try/except Exception` turns any error into
the empty list. -/
def fetch_and_filter_pubmed_papers (searchRes : Except String (List String))
    (fetchRes : Except String (List ArticleRec)) : List Row :=
  match fetchFilterCore searchRes fetchRes with
  | .ok rows => rows
  | .error _ => []

/-- Outcome of the CSV sink: whether the file was written and the message
printed to the console. -/
structure SinkOutcome where
  fileCreated : Bool
  message : String
deriving Repr, DecidableEq

/-- Embedding of `save_papers_to_csv` with the file system passed in as an
`Except` value (`.error e` models `open`/write raising `IOError e`): an empty
row list short-circuits with a notice and no file; an `IOError` is caught and
reported as a message; otherwise the file is written and a success message
printed. The total return type reflects that the function never raises. -/
def save_papers_to_csv (papers : List Row) (filename : String)
    (fileSystem : Except String Unit) : SinkOutcome :=
  if papers.isEmpty then ⟨false, "No papers to save."⟩
  else
    match fileSystem with
    | .ok _ => ⟨true, "Successfully saved " ++ toString papers.length ++ " papers to " ++ filename⟩
    | .error e => ⟨false, "Error saving to CSV file " ++ filename ++ ": " ++ e⟩

/-- Author with an academic affiliation that contains an email address. -/
def authorUnivEmail : AuthorRec :=
  { lastName := some "Roe", foreName := some "Jane", initials := none,
    collectiveName := none, affiliation := some "University of X jane@x.edu" }

/-- Author with a non-academic affiliation and no email. -/
def authorPfizer : AuthorRec :=
  { lastName := some "Doe", foreName := some "John", initials := none,
    collectiveName := none, affiliation := some "Pfizer Inc." }

/-- Article whose non-academic author comes after the email-yielding author. -/
def articleBreakCex : ArticleRec :=
  { pmid := some (some "1"), title := some (some "T"),
    pubDate := some (some "2023", none, none),
    authors := [authorUnivEmail, authorPfizer] }

/-- Article with a single non-academic author and no email anywhere. -/
def articlePfizer : ArticleRec :=
  { pmid := some (some "2"), title := some (some "T2"),
    pubDate := some (some "2024", some "Feb", none),
    authors := [authorPfizer] }

/-- The row the pipeline emits for `articlePfizer`. -/
def rowPfizer : Row :=
  { pubmedID := some "2", title := some "T2", publicationDate := "2024 Feb",
    nonAcademicAuthors := "John Doe", companyAffiliations := "Pfizer Inc.",
    correspondingAuthorEmail := "N/A" }

lemma parseAuthorAffiliation_snd (a : AuthorRec) :
    (parseAuthorAffiliation a).2 = a.affiliation := rfl

/-- Closed form of the author loop: the two appended lists collect name and
affiliation of exactly the non-academic authors among the scanned prefix, the
email is the first one found (else the incoming accumulator), and the flag is
set exactly when some scanned author is non-academic. -/
lemma scanAuthorsGo_spec (authors : List AuthorRec) :
    ∀ (na ca : List String) (em : Option String) (flag : Bool),
    scanAuthorsGo authors na ca em flag =
      ⟨na ++ ((scannedAuthors authors).filter nonAcadAuthor).map
          (fun b => (parseAuthorAffiliation b).1),
       ca ++ ((scannedAuthors authors).filter nonAcadAuthor).map
          (fun b => b.affiliation.getD ""),
       (firstEmail authors).elim em some,
       flag || (scannedAuthors authors).any nonAcadAuthor⟩ := by
  induction authors with
  | nil =>
    intro na ca em flag
    simp [scanAuthorsGo, scannedAuthors, firstEmail]
  | cons a rest ih =>
    intro na ca em flag
    simp only [scanAuthorsGo, parseAuthorAffiliation_snd]
    by_cases hT : affTruthy a.affiliation
    · cases hE : findEmail (a.affiliation.getD "") with
      | some e =>
        have hstop : stopsScan a = true := by simp [stopsScan, hT, hE]
        by_cases hC : isNonAcademicAffiliation (a.affiliation.getD "") = true
        · have hna : nonAcadAuthor a = true := by simp [nonAcadAuthor, hT, hC]
          simp [hT, hE, hC, scannedAuthors, hstop, firstEmail, hna]
        · have hna : nonAcadAuthor a = false := by
            simp [nonAcadAuthor, hT]
            simpa using hC
          simp [hT, hE, hC, scannedAuthors, hstop, firstEmail, hna]
      | none =>
        have hstop : stopsScan a = false := by simp [stopsScan, hE]
        by_cases hC : isNonAcademicAffiliation (a.affiliation.getD "") = true
        · have hna : nonAcadAuthor a = true := by simp [nonAcadAuthor, hT, hC]
          simp [hT, hE, hC, scannedAuthors, hstop, firstEmail, hna, ih]
        · have hna : nonAcadAuthor a = false := by
            simp [nonAcadAuthor, hT]
            simpa using hC
          simp [hT, hE, hC, scannedAuthors, hstop, firstEmail, hna, ih]
    · have hstop : stopsScan a = false := by simp [stopsScan, hT]
      have hna : nonAcadAuthor a = false := by simp [nonAcadAuthor, hT]
      simp [hT, scannedAuthors, hstop, firstEmail, hna, ih]

/-- Any character list returned by the email search contains the `@` sign. -/
lemma findEmailCore_mem (l : List Char) :
    ∀ (revAcc cl : List Char), findEmailCore revAcc l = some cl → '@' ∈ cl := by
  induction l with
  | nil => intro revAcc cl h; simp [findEmailCore] at h
  | cons c rest ih =>
    intro revAcc cl h
    simp only [findEmailCore] at h
    by_cases hc : c == '@'
    · simp only [hc, if_true] at h
      by_cases hok : !(revAcc.takeWhile emailChar).isEmpty
          && !(rest.takeWhile emailChar).isEmpty
      · simp only [hok, if_true, Option.some.injEq] at h
        subst h
        exact List.mem_append.mpr (Or.inr (List.mem_cons_self _ _))
      · simp only [hok, if_false] at h
        exact ih _ _ h
    · simp only [hc, if_false] at h
      exact ih _ _ h

/-- An extracted email is neither empty nor the sentinel `"N/A"`. -/
lemma findEmail_shape (s : String) (e : String) (h : findEmail s = some e) :
    '@' ∈ e.data := by
  simp only [findEmail, Option.map_eq_some'] at h
  obtain ⟨cl, hcl, hmk⟩ := h
  have := findEmailCore_mem s.data [] cl hcl
  subst hmk
  simpa using this

/-- The first email found is an actual email-search result, so it contains
the `@` sign. -/
lemma firstEmail_shape (authors : List AuthorRec) :
    ∀ e, firstEmail authors = some e → '@' ∈ e.data := by
  induction authors with
  | nil => intro e h; simp [firstEmail] at h
  | cons a rest ih =>
    intro e h
    simp only [firstEmail] at h
    by_cases hT : affTruthy a.affiliation
    · simp only [hT, if_true] at h
      cases hE : findEmail (a.affiliation.getD "") with
      | some f =>
        rw [hE] at h
        simp only [Option.some.injEq] at h
        subst h
        exact findEmail_shape _ _ hE
      | none =>
        rw [hE] at h
        exact ih e h
    · simp only [hT, if_false] at h
      exact ih e h

/-- The email scan finds nothing exactly when no author stops the loop. -/
lemma firstEmail_eq_none (authors : List AuthorRec) :
    firstEmail authors = none ↔ ∀ b ∈ authors, stopsScan b = false := by
  induction authors with
  | nil => simp [firstEmail]
  | cons a rest ih =>
    simp only [firstEmail]
    by_cases hT : affTruthy a.affiliation
    · cases hE : findEmail (a.affiliation.getD "") with
      | some f =>
        have hstop : stopsScan a = true := by simp [stopsScan, hT, hE]
        simp [hT, hE, hstop]
      | none =>
        have hstop : stopsScan a = false := by simp [stopsScan, hE]
        simp [hT, hE, hstop, ih]
    · have hstop : stopsScan a = false := by simp [stopsScan, hT]
      simp [hT, hstop, ih]

/-- Every scanned author is an author of the record. -/
lemma scannedAuthors_subset (authors : List AuthorRec) :
    ∀ b ∈ scannedAuthors authors, b ∈ authors := by
  induction authors with
  | nil => simp [scannedAuthors]
  | cons a rest ih =>
    intro b hb
    rw [scannedAuthors] at hb
    cases hs : stopsScan a with
    | true =>
      rw [if_pos hs] at hb
      simp only [List.mem_singleton] at hb
      exact hb ▸ List.mem_cons_self _ _
    | false =>
      rw [if_neg (by simp [hs])] at hb
      rcases List.mem_cons.mp hb with hb1 | hb1
      · exact hb1 ▸ List.mem_cons_self _ _
      · exact List.mem_cons_of_mem _ (ih b hb1)

/-- A prefix of authors none of whom stops the scan passes through
`scannedAuthors` unchanged. -/
lemma scannedAuthors_append (pre l : List AuthorRec)
    (h : ∀ b ∈ pre, stopsScan b = false) :
    scannedAuthors (pre ++ l) = pre ++ scannedAuthors l := by
  induction pre with
  | nil => simp
  | cons b rest ih =>
    have hb : stopsScan b = false := h b (List.mem_cons_self _ _)
    rw [List.cons_append, scannedAuthors, if_neg (by simp [hb]),
      ih (fun c hc => h c (List.mem_cons_of_mem _ hc)), List.cons_append]

/-- A prefix of authors none of whom stops the scan does not affect the
first email found. -/
lemma firstEmail_append (pre l : List AuthorRec)
    (h : ∀ b ∈ pre, stopsScan b = false) :
    firstEmail (pre ++ l) = firstEmail l := by
  induction pre with
  | nil => simp
  | cons b rest ih =>
    have hb : stopsScan b = false := h b (List.mem_cons_self _ _)
    have ihr := ih (fun c hc => h c (List.mem_cons_of_mem _ hc))
    simp only [List.cons_append, firstEmail]
    by_cases hT : affTruthy b.affiliation
    · cases hE : findEmail (b.affiliation.getD "") with
      | some f =>
        exfalso
        simp [stopsScan, hT, hE] at hb
      | none => simp [hT, hE, ihr]
    · simp [hT, ihr]

/-- Substring containment is monotone under shortening the pattern to one of
its prefixes. -/
lemma containsSub_of_prefix (l p q : List Char) (hpq : p.isPrefixOf q = true) :
    containsSub l q = true → containsSub l p = true := by
  induction l with
  | nil =>
    intro h
    rw [containsSub] at h ⊢
    have hq : q = [] := by simpa using h
    subst hq
    have hp : p = [] := by simpa using List.isPrefixOf_iff_prefix.mp hpq
    simp [hp]
  | cons c rest ih =>
    intro h
    rw [containsSub] at h ⊢
    simp only [Bool.or_eq_true] at h ⊢
    rcases h with h1 | h1
    · left
      have hp : p <+: q := List.isPrefixOf_iff_prefix.mp hpq
      have hq : q <+: c :: rest := List.isPrefixOf_iff_prefix.mp h1
      exact List.isPrefixOf_iff_prefix.mpr (hp.trans hq)
    · right
      exact ih h1

/-- The loop flag is set exactly when a scanned author is non-academic. -/
lemma scanAuthors_hasNonAcad (authors : List AuthorRec) :
    (scanAuthors authors).hasNonAcad = (scannedAuthors authors).any nonAcadAuthor := by
  rw [scanAuthors, scanAuthorsGo_spec]
  simp

/-- The loop records the first email found, if any. -/
lemma scanAuthors_email (authors : List AuthorRec) :
    (scanAuthors authors).email = (firstEmail authors).elim none some := by
  rw [scanAuthors, scanAuthorsGo_spec]

/-- The non-academic name list is the names of the non-academic scanned
authors, in document order. -/
lemma scanAuthors_nonAcadAuthors (authors : List AuthorRec) :
    (scanAuthors authors).nonAcadAuthors
      = ((scannedAuthors authors).filter nonAcadAuthor).map
          (fun b => (parseAuthorAffiliation b).1) := by
  rw [scanAuthors, scanAuthorsGo_spec]
  simp

/-- The company list is the affiliations of the non-academic scanned
authors, in document order. -/
lemma scanAuthors_companyAffs (authors : List AuthorRec) :
    (scanAuthors authors).companyAffs
      = ((scannedAuthors authors).filter nonAcadAuthor).map
          (fun b => b.affiliation.getD "") := by
  rw [scanAuthors, scanAuthorsGo_spec]
  simp

/-- When the three field nodes are present, the article never raises: it
yields the row exactly when the flag is set, and nothing otherwise. -/
lemma processArticle_eq (a : ArticleRec) (pid ttl : Option String)
    (pd : Option String × Option String × Option String)
    (hp : a.pmid = some pid) (ht : a.title = some ttl) (hd : a.pubDate = some pd) :
    processArticle a
      = .ok (if (scanAuthors a.authors).hasNonAcad
          then some (articleRow a pid ttl pd) else none) := by
  cases hflag : (scanAuthors a.authors).hasNonAcad with
  | true => simp [processArticle, hp, ht, hd, hflag]
  | false => simp [processArticle, hp, ht, hd, hflag]

/-- Claim C1: any affiliation string containing (case-insensitively, as a
substring) one of the academic keywords classifies as academic (`false`),
regardless of any industry keyword or corporate suffix also present. -/
theorem claim_C1 (s : String) (k : String) (hk : k ∈ ACADEMIC_KEYWORDS)
    (hsub : containsSub (lowerChars s) k.data = true) :
    isNonAcademicAffiliation s = false := by
  have hA : ACADEMIC_KEYWORDS.any (fun q => containsSub (lowerChars s) q.data) = true :=
    List.any_eq_true.mpr ⟨k, hk, hsub⟩
  simp [isNonAcademicAffiliation, hA]

/-- Witness for C1 at the spec's own example string. -/
theorem claim_C1_witness :
    isNonAcademicAffiliation "University of Cambridge, Pharma Department" = false :=
  claim_C1 "University of Cambridge, Pharma Department" "university"
    (by decide) (by decide)

/-- Claim C4: for a string with no academic keyword, the classifier returns
`true` exactly when an industry keyword occurs as a substring of the lowered
string or one of inc, llc, corp, ltd, co occurs as a standalone word; and the
empty string classifies `false`. -/
theorem claim_C4 :
    (∀ s : String, noAcademicKeyword s = true →
      (isNonAcademicAffiliation s = true ↔
        PHARMA_BIOTECH_KEYWORDS.any (fun k => containsSub (lowerChars s) k.data) = true
          ∨ matchesCorpRegex (lowerChars s) = true))
    ∧ isNonAcademicAffiliation "" = false := by
  constructor
  · intro s h
    have hA : ACADEMIC_KEYWORDS.any (fun k => containsSub (lowerChars s) k.data) = false := by
      simpa [noAcademicKeyword] using h
    cases hP : PHARMA_BIOTECH_KEYWORDS.any (fun k => containsSub (lowerChars s) k.data) with
    | true => simp [isNonAcademicAffiliation, hA, hP]
    | false =>
      cases hR : matchesCorpRegex (lowerChars s) with
      | true => simp [isNonAcademicAffiliation, hA, hP, hR]
      | false => simp [isNonAcademicAffiliation, hA, hP, hR]
  · decide

/-- Witness for C4: an industry-keyword string free of academic keywords. -/
theorem claim_C4_witness :
    isNonAcademicAffiliation "Pfizer Inc." = true ∧ noAcademicKeyword "Pfizer Inc." = true :=
  ⟨(claim_C4.1 "Pfizer Inc." (by decide)).mpr (Or.inl (by decide)), by decide⟩

/-- Claim C3 counterexample: `"AbbVie Corporation"` contains `"corporation"`
case-insensitively and no academic keyword, yet the keyword-list step DOES
fire on the `"corp"` keyword (substring match), while the whole-word regex
does not match at all; so the keyword-list step, not the regex step, is what
classifies the string as non-academic. -/
theorem claim_C3_counterexample :
    containsSub (lowerChars "AbbVie Corporation") ("corporation".data) = true
    ∧ noAcademicKeyword "AbbVie Corporation" = true
    ∧ containsSub (lowerChars "AbbVie Corporation") ("corp".data) = true
    ∧ matchesCorpRegex (lowerChars "AbbVie Corporation") = false
    ∧ isNonAcademicAffiliation "AbbVie Corporation" = true := by
  decide

/-- Claim C3 amended: for every string containing `"corporation"` in its
lowered form, the keyword-list step DOES fire on the `"corp"` keyword (the
keyword list matches substrings), and when no academic keyword is present the
string classifies as non-academic via the keyword-list step, whether or not
the whole-word regex matches. -/
theorem claim_C3_amended (s : String)
    (h : containsSub (lowerChars s) ("corporation".data) = true) :
    containsSub (lowerChars s) ("corp".data) = true
    ∧ (noAcademicKeyword s = true → isNonAcademicAffiliation s = true) := by
  have hcorp : containsSub (lowerChars s) ("corp".data) = true :=
    containsSub_of_prefix _ _ _ (by decide) h
  refine ⟨hcorp, ?_⟩
  intro hac
  have hA : ACADEMIC_KEYWORDS.any (fun k => containsSub (lowerChars s) k.data) = false := by
    simpa [noAcademicKeyword] using hac
  have hP : PHARMA_BIOTECH_KEYWORDS.any (fun k => containsSub (lowerChars s) k.data) = true :=
    List.any_eq_true.mpr ⟨"corp", by decide, hcorp⟩
  simp [isNonAcademicAffiliation, hA, hP]

/-- Witness for the amended C3. -/
theorem claim_C3_amended_witness :
    containsSub (lowerChars "Merck Sharp and Dohme Corporation") ("corp".data) = true
    ∧ isNonAcademicAffiliation "Merck Sharp and Dohme Corporation" = true :=
  ⟨(claim_C3_amended "Merck Sharp and Dohme Corporation" (by decide)).1,
   (claim_C3_amended "Merck Sharp and Dohme Corporation" (by decide)).2 (by decide)⟩

/-- Claim C7: author name composition follows the priority chain collective
name, given+surname, initials+surname, surname alone, empty (presence being
Python truthiness of the field text). -/
theorem claim_C7 (a : AuthorRec) :
    (affTruthy a.collectiveName = true →
      (parseAuthorAffiliation a).1 = a.collectiveName.getD "")
    ∧ (affTruthy a.collectiveName = false → affTruthy a.lastName = true →
        affTruthy a.foreName = true →
        (parseAuthorAffiliation a).1 = a.foreName.getD "" ++ " " ++ a.lastName.getD "")
    ∧ (affTruthy a.collectiveName = false → affTruthy a.lastName = true →
        affTruthy a.foreName = false → affTruthy a.initials = true →
        (parseAuthorAffiliation a).1 = a.initials.getD "" ++ " " ++ a.lastName.getD "")
    ∧ (affTruthy a.collectiveName = false → affTruthy a.lastName = true →
        affTruthy a.foreName = false → affTruthy a.initials = false →
        (parseAuthorAffiliation a).1 = a.lastName.getD "")
    ∧ (affTruthy a.collectiveName = false → affTruthy a.lastName = false →
        (parseAuthorAffiliation a).1 = "") := by
  refine ⟨?_, ?_, ?_, ?_, ?_⟩
  · intro h1
    simp [parseAuthorAffiliation, h1]
  · intro h1 h2 h3
    simp [parseAuthorAffiliation, h1, h2, h3]
  · intro h1 h2 h3 h4
    simp [parseAuthorAffiliation, h1, h2, h3, h4]
  · intro h1 h2 h3 h4
    simp [parseAuthorAffiliation, h1, h2, h3, h4]
  · intro h1 h2
    simp [parseAuthorAffiliation, h1, h2]

/-- Witness for C7 at an author with given name and surname. -/
theorem claim_C7_witness :
    (parseAuthorAffiliation authorPfizer).1
      = authorPfizer.foreName.getD "" ++ " " ++ authorPfizer.lastName.getD "" :=
  (claim_C7 authorPfizer).2.1 (by decide) (by decide) (by decide)

/-- Claim C8: the composed publication date is empty when the year is absent,
and otherwise is the year alone, year-month, or year-month-day; a day is
never included without the month. -/
theorem claim_C8 (y m d : Option String) :
    (affTruthy y = false → composePubDate y m d = "")
    ∧ (∀ ys, y = some ys → ys ≠ "" →
        composePubDate y m d = ys
        ∨ (∃ ms, m = some ms ∧ ms ≠ ""
            ∧ (composePubDate y m d = ys ++ " " ++ ms
               ∨ ∃ ds, d = some ds ∧ ds ≠ ""
                   ∧ composePubDate y m d = ys ++ " " ++ ms ++ " " ++ ds))) := by
  constructor
  · intro h
    simp [composePubDate, h]
  · intro ys hy hne
    subst hy
    have hT : affTruthy (some ys) = true := by simp [affTruthy, hne]
    cases m with
    | none =>
      left
      simp [composePubDate, affTruthy, hne]
    | some ms =>
      by_cases hms : ms = ""
      · left
        subst hms
        simp [composePubDate, affTruthy, hne]
      · right
        refine ⟨ms, rfl, hms, ?_⟩
        cases d with
        | none =>
          left
          simp [composePubDate, affTruthy, hne, hms]
        | some ds =>
          by_cases hds : ds = ""
          · left
            subst hds
            simp [composePubDate, affTruthy, hne, hms]
          · right
            exact ⟨ds, rfl, hds, by simp [composePubDate, affTruthy, hne, hms, hds]⟩

/-- Witness for C8 at a record with a day but no month: the composed date is
the year alone, not a year-day form. -/
theorem claim_C8_witness :
    composePubDate (some "2023") none (some "15") = "2023"
      ∨ (∃ ms, (none : Option String) = some ms ∧ ms ≠ ""
          ∧ (composePubDate (some "2023") none (some "15") = "2023" ++ " " ++ ms
             ∨ ∃ ds, (some "15" : Option String) = some ds ∧ ds ≠ ""
                 ∧ composePubDate (some "2023") none (some "15")
                     = "2023" ++ " " ++ ms ++ " " ++ ds)) :=
  (claim_C8 (some "2023") none (some "15")).2 "2023" rfl (by decide)

/-- Claim C5: every failure of the search, fetch or parse stage is caught at
the orchestrator boundary and turned into the empty list. -/
theorem claim_C5 (searchRes : Except String (List String))
    (fetchRes : Except String (List ArticleRec)) :
    (∀ e, searchRes = .error e →
      fetch_and_filter_pubmed_papers searchRes fetchRes = [])
    ∧ (∀ e ids, searchRes = .ok ids → ids.isEmpty = false → fetchRes = .error e →
      fetch_and_filter_pubmed_papers searchRes fetchRes = [])
    ∧ (∀ e, fetchFilterCore searchRes fetchRes = .error e →
      fetch_and_filter_pubmed_papers searchRes fetchRes = []) := by
  refine ⟨?_, ?_, ?_⟩
  · intro e h
    subst h
    rfl
  · intro e ids hs hempty hf
    subst hs
    subst hf
    cases ids with
    | nil => simp at hempty
    | cons x xs => rfl
  · intro e h
    simp [fetch_and_filter_pubmed_papers, h]

/-- Witness for C5 at a failing search collaborator. -/
theorem claim_C5_witness :
    fetch_and_filter_pubmed_papers (Except.error "HTTPError") (Except.ok []) = [] :=
  (claim_C5 (Except.error "HTTPError") (Except.ok [])).1 "HTTPError" rfl

/-- Claim C9: a sink call with zero rows creates no file and emits the
notice, and a sink call whose write raises `IOError` reports the error in a
message and returns normally. -/
theorem claim_C9 (papers : List Row) (filename : String) (fs : Except String Unit) :
    (papers = [] → save_papers_to_csv papers filename fs
        = ⟨false, "No papers to save."⟩)
    ∧ (∀ e, papers ≠ [] → fs = .error e →
        (save_papers_to_csv papers filename fs).fileCreated = false
        ∧ (save_papers_to_csv papers filename fs).message
            = "Error saving to CSV file " ++ filename ++ ": " ++ e) := by
  constructor
  · intro h
    subst h
    rfl
  · intro e hne hfs
    subst hfs
    cases papers with
    | nil => exact absurd rfl hne
    | cons p ps => exact ⟨rfl, rfl⟩

/-- Witness for C9: empty input and a permission error. -/
theorem claim_C9_witness :
    save_papers_to_csv [] "out.csv" (Except.ok ()) = ⟨false, "No papers to save."⟩
    ∧ (save_papers_to_csv [rowPfizer] "out.csv"
        (Except.error "Permission denied")).fileCreated = false :=
  ⟨(claim_C9 [] "out.csv" (Except.ok ())).1 rfl,
   ((claim_C9 [rowPfizer] "out.csv" (Except.error "Permission denied")).2
      "Permission denied" (by simp) rfl).1⟩

/-- Claim C2 counterexample: the second author has a present non-academic
affiliation, yet because the first author's affiliation yields an email the
loop `break`s before reaching them, so BOTH output lists stay empty (and the
flag stays unset) — the stop does not affect only the email field. -/
theorem claim_C2_counterexample :
    scanAuthors [authorUnivEmail, authorPfizer]
      = ⟨[], [], some "jane@x.edu", false⟩
    ∧ nonAcadAuthor authorPfizer = true := by
  exact ⟨rfl, rfl⟩

/-- Claim C2 amended: the aggregator appends name/affiliation pairs, in
document order, for exactly the non-academic authors among the scanned
prefix; but the first email match stops the entire author loop, so authors
after the email-yielding author contribute to no field at all. -/
theorem claim_C2_amended :
    (∀ authors : List AuthorRec,
      (scanAuthors authors).nonAcadAuthors
          = ((scannedAuthors authors).filter nonAcadAuthor).map
              (fun b => (parseAuthorAffiliation b).1)
        ∧ (scanAuthors authors).companyAffs
          = ((scannedAuthors authors).filter nonAcadAuthor).map
              (fun b => b.affiliation.getD ""))
    ∧ (∀ (pre : List AuthorRec) (a : AuthorRec) (post : List AuthorRec),
        (∀ b ∈ pre, stopsScan b = false) → stopsScan a = true →
        scanAuthors (pre ++ a :: post) = scanAuthors (pre ++ [a])) := by
  constructor
  · intro authors
    exact ⟨scanAuthors_nonAcadAuthors authors, scanAuthors_companyAffs authors⟩
  · intro pre a post hpre ha
    have ha2 := ha
    rw [stopsScan, Bool.and_eq_true] at ha2
    obtain ⟨hT, hsome⟩ := ha2
    have hsc : scannedAuthors (pre ++ a :: post) = scannedAuthors (pre ++ [a]) := by
      rw [scannedAuthors_append _ _ hpre, scannedAuthors_append _ _ hpre]
      rw [scannedAuthors, if_pos ha, scannedAuthors, if_pos ha]
    have hfe : firstEmail (pre ++ a :: post) = firstEmail (pre ++ [a]) := by
      rw [firstEmail_append _ _ hpre, firstEmail_append _ _ hpre]
      cases hE : findEmail (a.affiliation.getD "") with
      | some e => simp [firstEmail, hT, hE]
      | none => rw [hE] at hsome; simp at hsome
    rw [scanAuthors, scanAuthors, scanAuthorsGo_spec, scanAuthorsGo_spec, hsc, hfe]

/-- Witness for the amended C2: the non-academic author before the email
author is kept, the one after is dropped. -/
theorem claim_C2_amended_witness :
    scanAuthors ([authorPfizer] ++ authorUnivEmail :: [authorPfizer])
      = scanAuthors ([authorPfizer] ++ [authorUnivEmail]) :=
  claim_C2_amended.2 [authorPfizer] authorUnivEmail [authorPfizer]
    (by decide) (by decide)

/-- Claim C6 counterexample: an article whose only non-academic author comes
after the email-yielding author is NOT emitted, although one of its authors
has a present affiliation classified non-academic. -/
theorem claim_C6_counterexample :
    processArticle articleBreakCex = Except.ok none
    ∧ authorPfizer ∈ articleBreakCex.authors
    ∧ nonAcadAuthor authorPfizer = true := by
  refine ⟨rfl, by decide, rfl⟩

/-- Claim C6 amended: a row is emitted iff some author among the scanned
prefix (the loop stops at, and includes, the first author whose present
affiliation contains an email) classifies non-academic; and in an emitted
row the email field is `"N/A"` exactly when the scan found no email, which
happens exactly when no author's present affiliation contains one. -/
theorem claim_C6_amended (a : ArticleRec) (pid ttl : Option String)
    (pd : Option String × Option String × Option String)
    (hp : a.pmid = some pid) (ht : a.title = some ttl) (hd : a.pubDate = some pd) :
    ((∃ row, processArticle a = .ok (some row))
        ↔ (scannedAuthors a.authors).any nonAcadAuthor = true)
    ∧ (∀ row, processArticle a = .ok (some row) →
        (row.correspondingAuthorEmail = "N/A" ↔ firstEmail a.authors = none))
    ∧ (firstEmail a.authors = none ↔ ∀ b ∈ a.authors, stopsScan b = false) := by
  have hpe := processArticle_eq a pid ttl pd hp ht hd
  refine ⟨?_, ?_, firstEmail_eq_none a.authors⟩
  · rw [← scanAuthors_hasNonAcad]
    cases hflag : (scanAuthors a.authors).hasNonAcad with
    | true =>
      rw [hflag] at hpe
      rw [if_pos rfl] at hpe
      exact ⟨fun _ => rfl, fun _ => ⟨articleRow a pid ttl pd, hpe⟩⟩
    | false =>
      rw [hflag] at hpe
      rw [if_neg Bool.false_ne_true] at hpe
      constructor
      · rintro ⟨row, hrow⟩
        rw [hpe] at hrow
        simp at hrow
      · intro h
        simp at h
  · intro row hrow
    cases hflag : (scanAuthors a.authors).hasNonAcad with
    | false =>
      rw [hflag] at hpe
      rw [if_neg Bool.false_ne_true] at hpe
      rw [hpe] at hrow
      simp at hrow
    | true =>
      rw [hflag] at hpe
      rw [if_pos rfl] at hpe
      rw [hpe] at hrow
      have hr : row = articleRow a pid ttl pd := by
        have := hrow
        simp only [Except.ok.injEq, Option.some.injEq] at this
        exact this.symm
      subst hr
      show (articleRow a pid ttl pd).correspondingAuthorEmail = "N/A"
          ↔ firstEmail a.authors = none
      rw [articleRow]
      simp only [scanAuthors_email]
      cases hfe : firstEmail a.authors with
      | none => simp
      | some e =>
        have hat : '@' ∈ e.data := firstEmail_shape a.authors e hfe
        have hne : e ≠ "" := by
          intro h
          subst h
          simp at hat
        have hna : e ≠ "N/A" := by
          intro h
          subst h
          exact absurd hat (by decide)
        simp only [Option.elim]
        have hbeq : (e == "") = false := by
          simpa using hne
        simp [hbeq, hna, hne]

/-- Witness for the amended C6 at a concrete emitted article. -/
theorem claim_C6_amended_witness :
    rowPfizer.correspondingAuthorEmail = "N/A"
      ↔ firstEmail articlePfizer.authors = none :=
  (claim_C6_amended articlePfizer (some "2") (some "T2")
      ((some "2024", some "Feb", none)) rfl rfl rfl).2.1 rowPfizer (by rfl)

/-- Claim C10: in every emitted row, the two semicolon-joined lists come from
one list of name/affiliation pairs — same number of entries, the i-th
affiliation belonging to the i-th listed author — and every pair is the
parsed name and present non-academic affiliation of one of the record's
authors. -/
theorem claim_C10 (a : ArticleRec) (pid ttl : Option String)
    (pd : Option String × Option String × Option String) (row : Row)
    (hp : a.pmid = some pid) (ht : a.title = some ttl) (hd : a.pubDate = some pd)
    (hrow : processArticle a = .ok (some row)) :
    ∃ l : List (String × String),
      row.nonAcademicAuthors = joinSemi (l.map Prod.fst)
      ∧ row.companyAffiliations = joinSemi (l.map Prod.snd)
      ∧ (l.map Prod.fst).length = (l.map Prod.snd).length
      ∧ ∀ p ∈ l, ∃ b ∈ a.authors,
          (parseAuthorAffiliation b).1 = p.1
          ∧ b.affiliation = some p.2
          ∧ isNonAcademicAffiliation p.2 = true := by
  have hpe := processArticle_eq a pid ttl pd hp ht hd
  have hr : row = articleRow a pid ttl pd := by
    cases hflag : (scanAuthors a.authors).hasNonAcad with
    | false =>
      rw [hflag] at hpe
      rw [if_neg Bool.false_ne_true] at hpe
      rw [hpe] at hrow
      simp at hrow
    | true =>
      rw [hflag] at hpe
      rw [if_pos rfl] at hpe
      rw [hpe] at hrow
      simp only [Except.ok.injEq, Option.some.injEq] at hrow
      exact hrow.symm
  subst hr
  refine ⟨((scannedAuthors a.authors).filter nonAcadAuthor).map
      (fun b => ((parseAuthorAffiliation b).1, b.affiliation.getD "")), ?_, ?_, ?_, ?_⟩
  · rw [articleRow]
    simp only [scanAuthors_nonAcadAuthors, List.map_map]
    rfl
  · rw [articleRow]
    simp only [scanAuthors_companyAffs, List.map_map]
    rfl
  · simp
  · intro p hpmem
    rcases List.mem_map.mp hpmem with ⟨b, hbmem, hbp⟩
    rcases List.mem_filter.mp hbmem with ⟨hbscan, hbna⟩
    rw [nonAcadAuthor, Bool.and_eq_true] at hbna
    obtain ⟨hbt, hbc⟩ := hbna
    refine ⟨b, scannedAuthors_subset a.authors b hbscan, ?_⟩
    cases hba : b.affiliation with
    | none =>
      rw [hba] at hbt
      simp [affTruthy] at hbt
    | some s =>
      rw [hba] at hbc
      subst hbp
      simp only [hba, Option.getD_some]
      exact ⟨trivial, trivial, by simpa using hbc⟩

/-- Witness for C10 at a concrete emitted article. -/
theorem claim_C10_witness :
    ∃ l : List (String × String),
      rowPfizer.nonAcademicAuthors = joinSemi (l.map Prod.fst)
      ∧ rowPfizer.companyAffiliations = joinSemi (l.map Prod.snd)
      ∧ (l.map Prod.fst).length = (l.map Prod.snd).length
      ∧ ∀ p ∈ l, ∃ b ∈ articlePfizer.authors,
          (parseAuthorAffiliation b).1 = p.1
          ∧ b.affiliation = some p.2
          ∧ isNonAcademicAffiliation p.2 = true :=
  claim_C10 articlePfizer (some "2") (some "T2") ((some "2024", some "Feb", none))
    rowPfizer rfl rfl rfl (by rfl)
